import Mathlib

/-!
Verification of the battery telemetry analytics core:
the Equivalent-Full-Cycle estimator (`cycles.py`: `calculate_cycles`,
`compute_all_cycles`) and the hybrid SOC anomaly detector
(`pp.py`: `detect_anomalies`).

Timestamps are modelled as rationals measured in hours, SOC values as
rationals, and battery identifiers as naturals.  Pandas data frames become
lists of `Row` records; `sort_values` becomes a stable merge sort on the
timestamp; pandas `round(x, 3)` becomes rounding of rationals at three
decimals.
-/

namespace BatteryReport

/-- One telemetry row: battery identifier, timestamp (hours), state of
charge (percent).  Mirrors the columns used by the analytics code. -/
structure Row where
  battery : ℕ
  ts : ℚ
  soc : ℚ
deriving DecidableEq, Repr

instance : Inhabited Row := ⟨⟨0, 0, 0⟩⟩

/-- Comparison used by every `sort_values("ts")`: order rows by timestamp. -/
def tsLE (a b : Row) : Prop := a.ts ≤ b.ts

instance : DecidableRel tsLE := fun a b => inferInstanceAs (Decidable (a.ts ≤ b.ts))

instance : IsTotal Row tsLE := ⟨fun a b => le_total a.ts b.ts⟩

instance : IsTrans Row tsLE := ⟨fun _ _ _ h h' => le_trans h h'⟩

/-- Sort rows by timestamp ascending (`df.sort_values("ts")`), as a stable
sort. -/
def sortByTs (l : List Row) : List Row := l.insertionSort tsLE

/-- Consecutive SOC drops clamped at zero, one per adjacent pair:
`(df.prev_soc - df.battery_soc_pct).clip(lower=0)` with the leading `NaN`
discarded (pandas `sum` skips it). -/
def clampedDrops : List Row → List ℚ
  | a :: b :: rest => max 0 (a.soc - b.soc) :: clampedDrops (b :: rest)
  | _ => []

/-- Embedding of `cycles.py::calculate_cycles`: sort by timestamp, take
consecutive SOC differences `prev - cur`, clamp below at 0, sum, divide
by 100. -/
def calculate_cycles (df : List Row) : ℚ :=
  (clampedDrops (sortByTs df)).sum / 100

/-- Maximum timestamp of a frame (`bdf["ts"].max()`); only ever used on
nonempty frames. -/
def maxTs (l : List Row) : ℚ := ((l.map Row.ts).maximum).getD 0

/-- Window restriction `bdf[bdf["ts"] >= bdf["ts"].max() - w]`. -/
def windowSlice (bdf : List Row) (w : ℚ) : List Row :=
  bdf.filter fun r => decide (maxTs bdf - w ≤ r.ts)

/-- Python `round(x, 3)`: round at the third decimal.  (The source rounds
floats with banker's rounding; the spec accepts any consistent tie policy,
and we use Mathlib's `round`.) -/
def round3 (x : ℚ) : ℚ := (round (x * 1000) : ℤ) / 1000

/-- One windowed cycle count in `compute_all_cycles`:
`calculate_cycles(df_w) if len(df_w) > 1 else 0`. -/
def cyclesWindow (bdf : List Row) (w : ℚ) : ℚ :=
  if 1 < (windowSlice bdf w).length then calculate_cycles (windowSlice bdf w) else 0

/-- The 24-hour window, in hours. -/
def hours24 : ℚ := 24

/-- The 7-day window, in hours. -/
def days7 : ℚ := 7 * 24

/-- The 30-day window, in hours. -/
def days30 : ℚ := 30 * 24

/-- Per-battery output record of `compute_all_cycles`. -/
structure CycleWindowResult where
  cycles_last_24h : ℚ
  cycles_last_7d : ℚ
  cycles_last_30d : ℚ
  total_cycles : ℚ
deriving DecidableEq, Repr

/-- The body of the per-battery loop of `compute_all_cycles`: the three
guarded window counts plus the unguarded all-time count, each rounded to
three decimals. -/
def computeBattery (bdf : List Row) : CycleWindowResult where
  cycles_last_24h := round3 (cyclesWindow bdf hours24)
  cycles_last_7d := round3 (cyclesWindow bdf days7)
  cycles_last_30d := round3 (cyclesWindow bdf days30)
  total_cycles := round3 (calculate_cycles bdf)

/-- Pandas `Series.unique()`: distinct values in order of first
appearance. -/
def uniqueKeys : List ℕ → List ℕ
  | [] => []
  | a :: l => a :: (uniqueKeys l).filter fun x => x ≠ a

/-- Embedding of `cycles.py::compute_all_cycles`: for each distinct
battery, compute the four rounded cycle counts from that battery's rows. -/
def compute_all_cycles (df : List Row) : List (ℕ × CycleWindowResult) :=
  (uniqueKeys (df.map Row.battery)).map fun b =>
    (b, computeBattery (df.filter fun r => r.battery = b))

/-- One battery's bucketed series inside `detect_anomalies`: the group
`g` obtained from `df.sort_values(["battery_id", "ts"])` followed by
`groupby("battery_id")`, i.e. that battery's rows sorted by timestamp. -/
def groupOf (df : List Row) (b : ℕ) : List Row :=
  sortByTs (df.filter fun r => r.battery = b)

/-- The distinct battery identifiers in the order `groupby("battery_id")`
iterates them: ascending. -/
def batteriesSorted (df : List Row) : List ℕ :=
  (uniqueKeys (df.map Row.battery)).insertionSort (· ≤ ·)

/-- The defined SOC drops of a sorted group: pandas
`g["soc"].diff().dropna()`, i.e. `soc[i] - soc[i-1]` for `i ≥ 1`
(current minus previous — `diff`, not the reversed difference). -/
def socDrops : List Row → List ℚ
  | a :: b :: rest => (b.soc - a.soc) :: socDrops (b :: rest)
  | _ => []

/-- Helper pairing every row after the first with its `diff` drop. -/
def withDropsFrom (p : Row) : List Row → List (Row × Option ℚ)
  | [] => []
  | a :: rest => (a, some (a.soc - p.soc)) :: withDropsFrom a rest

/-- A sorted group with its `soc_drop` column: the first row has no
defined drop (`NaN`, modelled as `none`). -/
def withDrops : List Row → List (Row × Option ℚ)
  | [] => []
  | a :: rest => (a, none) :: withDropsFrom a rest

/-- Pandas `drops.mean()`: arithmetic mean. -/
def dropMean (drops : List ℚ) : ℚ := drops.sum / drops.length

/-- Sum of squared deviations from the mean;
`drops.std()` is `sqrt (dropSS drops / (n - 1))` (sample standard
deviation, `ddof = 1`). -/
def dropSS (drops : List ℚ) : ℚ :=
  (drops.map fun x => (x - dropMean drops) ^ 2).sum

/-- The adaptive comparison `d < mean - 1.5 * std` of `detect_anomalies`,
encoded without radicals so that it stays decidable over `ℚ`:
for `n ≥ 2`, `d < μ - 1.5·σ` with `σ = sqrt (SS / (n-1)) ≥ 0` holds iff
`d < μ` and `(9/4)·SS < (μ - d)^2·(n-1)` (proved as `anomaly_rule` below).
For `n = 1` pandas `std()` is `NaN` and the comparison is always false,
whence the `2 ≤ n` guard; for `n = 0` the battery is skipped earlier. -/
def belowThreshold (drops : List ℚ) (d : ℚ) : Bool :=
  decide (2 ≤ drops.length) && decide (d < dropMean drops) &&
    decide ((9 / 4) * dropSS drops < (dropMean drops - d) ^ 2 * ((drops.length : ℚ) - 1))

/-- The hybrid anomaly predicate of `detect_anomalies`:
`(g["soc_drop"] < -15) | (g["soc_drop"] < threshold)`. -/
def isAnomalous (drops : List ℚ) (d : ℚ) : Bool :=
  decide (d < -15) || belowThreshold drops d

/-- Per-battery body of `detect_anomalies`: if the battery has no defined
drop, the anomaly set is empty; otherwise keep exactly the rows whose
defined drop satisfies the hybrid predicate, in series order. -/
def detectBattery (g : List Row) : List Row :=
  let drops := socDrops g
  if drops.length = 0 then []
  else
    ((withDrops g).filter fun p =>
        match p.2 with
        | none => false
        | some d => isAnomalous drops d).map Prod.fst

/-- Embedding of `pp.py::detect_anomalies`: one `(battery, full sorted
series, anomalous subset)` triple per distinct battery. -/
def detect_anomalies (df : List Row) : List (ℕ × List Row × List Row) :=
  (batteriesSorted df).map fun b => (b, groupOf df b, detectBattery (groupOf df b))

/-! ### Concrete data used by witnesses and counterexamples -/

/-- A small telemetry frame: battery 7 with two (unsorted) samples dropping
from SOC 80 to 60, battery 9 with a single sample. -/
def sampleFrame : List Row := [⟨7, 1, 60⟩, ⟨9, 5, 50⟩, ⟨7, 0, 80⟩]

/-- A bucketed frame for one battery with SOC path 80, 60, 61, 40 at four
consecutive buckets (the worked example of the spec). -/
def bucketFrame : List Row := [⟨1, 0, 80⟩, ⟨1, 2, 60⟩, ⟨1, 4, 61⟩, ⟨1, 6, 40⟩]

/-! ### Helper lemmas -/

lemma socDrops_getD :
    ∀ (l : List Row) (i : ℕ), i + 1 < l.length →
      (socDrops l).getD i 0 = (l.getD (i + 1) default).soc - (l.getD i default).soc
  | [], i, h => by simp at h
  | [_], i, h => by simp at h
  | _ :: _ :: _, 0, _ => rfl
  | a :: b :: rest, i + 1, h => by
    have ih := socDrops_getD (b :: rest) i (by simpa using h)
    simpa [socDrops] using ih

lemma detectBattery_of_no_drops {g : List Row} (h : socDrops g = []) :
    detectBattery g = [] := by
  unfold detectBattery
  simp [h]

/-! ### C1 -/

/-- C1, counterexample: for battery 7 of `sampleFrame` (sorted series SOC
80 then 60) the code's drop at bucket 1 is `-20 = soc[1] - soc[0]`, not
`soc[0] - soc[1] = 20` as the claim states. -/
theorem soc_drop_sign_counterexample :
    socDrops (groupOf sampleFrame 7) = [-20]
      ∧ ((groupOf sampleFrame 7).getD 0 default).soc
          - ((groupOf sampleFrame 7).getD 1 default).soc = 20
      ∧ ¬ ((socDrops (groupOf sampleFrame 7)).getD 0 0
            = ((groupOf sampleFrame 7).getD 0 default).soc
                - ((groupOf sampleFrame 7).getD 1 default).soc) := by
  refine ⟨?_, ?_, ?_⟩ <;>
    norm_num [sampleFrame, groupOf, sortByTs, socDrops, tsLE,
      List.insertionSort, List.orderedInsert]

/-- C1, amended: in `detect_anomalies` the SOC drop of bucket `i ≥ 1` of a
battery's timestamp-sorted series is `soc[i] - soc[i-1]` (pandas `diff`),
so a negative `soc_drop` means decreased charge (discharge) and a positive
`soc_drop` means a charge increase. -/
theorem soc_drop_is_diff (df : List Row) (b i : ℕ)
    (hi : i + 1 < (groupOf df b).length) :
    (socDrops (groupOf df b)).getD i 0
      = ((groupOf df b).getD (i + 1) default).soc - ((groupOf df b).getD i default).soc :=
  socDrops_getD _ i hi

/-- C1, witness for the amended statement at `sampleFrame`, battery 7,
bucket 1. -/
theorem soc_drop_is_diff_witness :
    0 + 1 < (groupOf sampleFrame 7).length
      ∧ (socDrops (groupOf sampleFrame 7)).getD 0 0
          = ((groupOf sampleFrame 7).getD 1 default).soc
              - ((groupOf sampleFrame 7).getD 0 default).soc :=
  ⟨by norm_num [sampleFrame, groupOf, sortByTs, tsLE, List.insertionSort, List.orderedInsert],
   soc_drop_is_diff sampleFrame 7 0
     (by norm_num [sampleFrame, groupOf, sortByTs, tsLE, List.insertionSort, List.orderedInsert])⟩

/-! ### C7 -/

/-- C7: a battery whose bucketed series yields zero defined drops still
appears in the output of `detect_anomalies`, with an empty anomaly set. -/
theorem no_drops_empty_anomalies (df : List Row) (b : ℕ)
    (hb : b ∈ batteriesSorted df) (h : socDrops (groupOf df b) = []) :
    (b, groupOf df b, ([] : List Row)) ∈ detect_anomalies df := by
  unfold detect_anomalies
  exact List.mem_map.mpr ⟨b, hb, by rw [detectBattery_of_no_drops h]⟩

/-- C7, witness: battery 9 of `sampleFrame` has a single bucket, hence no
defined drop, and is reported with an empty anomaly set. -/
theorem no_drops_empty_anomalies_witness :
    9 ∈ batteriesSorted sampleFrame
      ∧ socDrops (groupOf sampleFrame 9) = []
      ∧ (9, groupOf sampleFrame 9, ([] : List Row)) ∈ detect_anomalies sampleFrame := by
  refine ⟨?h1, ?h2, no_drops_empty_anomalies sampleFrame 9 ?h1 ?h2⟩
  case h1 =>
    norm_num [sampleFrame, batteriesSorted, uniqueKeys, List.insertionSort, List.orderedInsert]
  case h2 =>
    norm_num [sampleFrame, groupOf, sortByTs, socDrops, tsLE,
      List.insertionSort, List.orderedInsert]

/-! ### C5 and C2 -/

lemma round3_zero : round3 0 = 0 := by
  simp [round3]

lemma clampedDrops_of_short : ∀ {l : List Row}, l.length ≤ 1 → clampedDrops l = []
  | [], _ => rfl
  | [_], _ => rfl
  | _ :: _ :: _, h => by simp at h

lemma length_sortByTs (l : List Row) : (sortByTs l).length = l.length :=
  List.length_insertionSort _ _

lemma calculate_cycles_of_short {l : List Row} (h : l.length ≤ 1) :
    calculate_cycles l = 0 := by
  unfold calculate_cycles
  rw [clampedDrops_of_short (by simpa [length_sortByTs] using h)]
  simp

/-- Membership in the output of `compute_all_cycles`, unfolded. -/
lemma mem_compute_all_cycles {df : List Row} {b : ℕ} {res : CycleWindowResult} :
    (b, res) ∈ compute_all_cycles df ↔
      b ∈ uniqueKeys (df.map Row.battery)
        ∧ res = computeBattery (df.filter fun r => r.battery = b) := by
  constructor
  · intro h
    obtain ⟨a, ha, heq⟩ := List.mem_map.mp h
    rw [Prod.mk.injEq] at heq
    obtain ⟨rfl, h2⟩ := heq
    exact ⟨ha, h2.symm⟩
  · rintro ⟨hb, rfl⟩
    exact List.mem_map.mpr ⟨b, hb, rfl⟩

/-- C5: a window whose restricted sub-sequence has fewer than 2 samples
reports 0 cycles, and a battery with fewer than 2 samples in total reports
0 all-time cycles; no case is an error. -/
theorem insufficient_data_zero_cycles (df : List Row) (b : ℕ) (res : CycleWindowResult)
    (hmem : (b, res) ∈ compute_all_cycles df) :
    ((windowSlice (df.filter fun r => r.battery = b) hours24).length < 2 →
        res.cycles_last_24h = 0)
      ∧ ((windowSlice (df.filter fun r => r.battery = b) days7).length < 2 →
        res.cycles_last_7d = 0)
      ∧ ((windowSlice (df.filter fun r => r.battery = b) days30).length < 2 →
        res.cycles_last_30d = 0)
      ∧ ((df.filter fun r => r.battery = b).length < 2 → res.total_cycles = 0) := by
  obtain ⟨-, rfl⟩ := mem_compute_all_cycles.mp hmem
  refine ⟨fun h => ?_, fun h => ?_, fun h => ?_, fun h => ?_⟩
  · show round3 (cyclesWindow _ _) = 0
    rw [cyclesWindow, if_neg (by omega), round3_zero]
  · show round3 (cyclesWindow _ _) = 0
    rw [cyclesWindow, if_neg (by omega), round3_zero]
  · show round3 (cyclesWindow _ _) = 0
    rw [cyclesWindow, if_neg (by omega), round3_zero]
  · show round3 (calculate_cycles _) = 0
    rw [calculate_cycles_of_short (by omega), round3_zero]

/-- C5, witness: battery 9 of `sampleFrame` has a single sample; its
24-hour and all-time cycle counts are 0. -/
theorem insufficient_data_zero_cycles_witness :
    ((9 : ℕ), computeBattery (sampleFrame.filter fun r => r.battery = 9))
        ∈ compute_all_cycles sampleFrame
      ∧ (windowSlice (sampleFrame.filter fun r => r.battery = 9) hours24).length < 2
      ∧ (sampleFrame.filter fun r => r.battery = 9).length < 2
      ∧ (computeBattery (sampleFrame.filter fun r => r.battery = 9)).cycles_last_24h = 0
      ∧ (computeBattery (sampleFrame.filter fun r => r.battery = 9)).total_cycles = 0 := by
  have hmem : ((9 : ℕ), computeBattery (sampleFrame.filter fun r => r.battery = 9))
      ∈ compute_all_cycles sampleFrame :=
    mem_compute_all_cycles.mpr ⟨by norm_num [sampleFrame, uniqueKeys], rfl⟩
  have h24 : (windowSlice (sampleFrame.filter fun r => r.battery = 9) hours24).length < 2 := by
    norm_num [sampleFrame, windowSlice, maxTs, hours24, List.maximum, List.argmax, List.argAux]
  have ht : (sampleFrame.filter fun r => r.battery = 9).length < 2 := by
    norm_num [sampleFrame]
  exact ⟨hmem, h24, ht,
    (insufficient_data_zero_cycles sampleFrame 9 _ hmem).1 h24,
    (insufficient_data_zero_cycles sampleFrame 9 _ hmem).2.2.2 ht⟩

/-- Spec-side formulation of the windowed cycle count (spec §4.1 step 4):
pair each SOC value with its successor in sorted order, clamp
`soc[i-1] - soc[i]` below at 0, and sum. -/
def specDropSum (socs : List ℚ) : ℚ :=
  ((socs.zip socs.tail).map fun p => max 0 (p.1 - p.2)).sum

lemma specDropSum_eq : ∀ l : List Row, specDropSum (l.map Row.soc) = (clampedDrops l).sum
  | [] => rfl
  | [_] => rfl
  | a :: b :: rest => by
    have ih := specDropSum_eq (b :: rest)
    simp only [specDropSum, clampedDrops, List.map_cons, List.tail_cons,
      List.zip_cons_cons, List.sum_cons] at ih ⊢
    rw [ih]

/-- C2: whenever a window's restricted sub-sequence has at least 2
samples, the reported count for that window is the clamped consecutive
drop sum of the timestamp-sorted restriction, divided by 100 and rounded
to 3 decimals; the all-time count uses the unrestricted sequence. -/
theorem cycle_window_value (df : List Row) (b : ℕ) (res : CycleWindowResult)
    (hmem : (b, res) ∈ compute_all_cycles df) :
    (2 ≤ (windowSlice (df.filter fun r => r.battery = b) hours24).length →
        res.cycles_last_24h = round3 (specDropSum
          ((sortByTs (windowSlice (df.filter fun r => r.battery = b) hours24)).map Row.soc) / 100))
      ∧ (2 ≤ (windowSlice (df.filter fun r => r.battery = b) days7).length →
        res.cycles_last_7d = round3 (specDropSum
          ((sortByTs (windowSlice (df.filter fun r => r.battery = b) days7)).map Row.soc) / 100))
      ∧ (2 ≤ (windowSlice (df.filter fun r => r.battery = b) days30).length →
        res.cycles_last_30d = round3 (specDropSum
          ((sortByTs (windowSlice (df.filter fun r => r.battery = b) days30)).map Row.soc) / 100))
      ∧ (2 ≤ (df.filter fun r => r.battery = b).length →
        res.total_cycles = round3 (specDropSum
          ((sortByTs (df.filter fun r => r.battery = b)).map Row.soc) / 100)) := by
  obtain ⟨-, rfl⟩ := mem_compute_all_cycles.mp hmem
  refine ⟨fun h => ?_, fun h => ?_, fun h => ?_, fun _ => ?_⟩
  · show round3 (cyclesWindow _ _) = _
    rw [cyclesWindow, if_pos (by omega), calculate_cycles, specDropSum_eq]
  · show round3 (cyclesWindow _ _) = _
    rw [cyclesWindow, if_pos (by omega), calculate_cycles, specDropSum_eq]
  · show round3 (cyclesWindow _ _) = _
    rw [cyclesWindow, if_pos (by omega), calculate_cycles, specDropSum_eq]
  · show round3 (calculate_cycles _) = _
    rw [calculate_cycles, specDropSum_eq]

/-- C2, witness at battery 7 of `sampleFrame` (two samples one hour
apart). -/
theorem cycle_window_value_witness :
    ((7 : ℕ), computeBattery (sampleFrame.filter fun r => r.battery = 7))
        ∈ compute_all_cycles sampleFrame
      ∧ 2 ≤ (windowSlice (sampleFrame.filter fun r => r.battery = 7) hours24).length
      ∧ (computeBattery (sampleFrame.filter fun r => r.battery = 7)).cycles_last_24h
          = round3 (specDropSum
            ((sortByTs (windowSlice (sampleFrame.filter fun r => r.battery = 7) hours24)).map
              Row.soc) / 100) := by
  have hmem : ((7 : ℕ), computeBattery (sampleFrame.filter fun r => r.battery = 7))
      ∈ compute_all_cycles sampleFrame :=
    mem_compute_all_cycles.mpr ⟨by norm_num [sampleFrame, uniqueKeys], rfl⟩
  have h24 : 2 ≤ (windowSlice (sampleFrame.filter fun r => r.battery = 7) hours24).length := by
    norm_num [sampleFrame, windowSlice, maxTs, hours24, List.maximum, List.argmax, List.argAux]
  exact ⟨hmem, h24, (cycle_window_value sampleFrame 7 _ hmem).1 h24⟩

/-! ### C6 and C3 -/

lemma dropMean_const {drops : List ℚ} {c : ℚ} (hn : drops.length ≠ 0)
    (h : ∀ x ∈ drops, x = c) : dropMean drops = c := by
  unfold dropMean
  rw [List.sum_eq_card_nsmul drops c h, nsmul_eq_mul]
  exact mul_div_cancel_left₀ c (Nat.cast_ne_zero.mpr hn)

lemma dropSS_const {drops : List ℚ} {c : ℚ} (hn : drops.length ≠ 0)
    (h : ∀ x ∈ drops, x = c) : dropSS drops = 0 := by
  unfold dropSS
  apply List.sum_eq_zero
  intro y hy
  obtain ⟨x, hx, rfl⟩ := List.mem_map.mp hy
  rw [h x hx, dropMean_const hn h]
  simp

lemma dropSS_nonneg (drops : List ℚ) : 0 ≤ dropSS drops := by
  unfold dropSS
  apply List.sum_nonneg
  intro y hy
  obtain ⟨x, _, rfl⟩ := List.mem_map.mp hy
  positivity

/-- C6: with at least two constant drops the adaptive threshold is exactly
the mean (no division, no indeterminacy): a drop is flagged iff it is
below `-15` or strictly below the mean, so drops equal to the mean are not
flagged; with exactly one defined drop the adaptive comparison never
fires and only the hard `-15` threshold can flag it. -/
theorem degenerate_threshold :
    (∀ (drops : List ℚ) (c d : ℚ), 2 ≤ drops.length → (∀ x ∈ drops, x = c) →
        dropMean drops = c ∧ dropSS drops = 0
          ∧ (isAnomalous drops d = true ↔ (d < -15 ∨ d < dropMean drops)))
      ∧ ∀ x d : ℚ, isAnomalous [x] d = decide (d < -15) := by
  constructor
  · intro drops c d hn hc
    have hn0 : drops.length ≠ 0 := by omega
    have hμ := dropMean_const hn0 hc
    have hss := dropSS_const hn0 hc
    refine ⟨hμ, hss, ?_⟩
    simp only [isAnomalous, belowThreshold, hss, Bool.or_eq_true, Bool.and_eq_true,
      decide_eq_true_eq]
    constructor
    · rintro (h | ⟨⟨-, hd⟩, -⟩)
      · exact Or.inl h
      · exact Or.inr hd
    · rintro (h | hd)
      · exact Or.inl h
      · refine Or.inr ⟨⟨hn, hd⟩, ?_⟩
        have h1 : (0 : ℚ) < (dropMean drops - d) ^ 2 := pow_pos (sub_pos.mpr hd) 2
        have h2 : (0 : ℚ) < (drops.length : ℚ) - 1 := by
          have : (2 : ℚ) ≤ (drops.length : ℚ) := by exact_mod_cast hn
          linarith
        have := mul_pos h1 h2
        linarith
  · intro x d
    simp [isAnomalous, belowThreshold]

/-- C6, witness: two constant drops `-5`, candidate drop `-20`. -/
theorem degenerate_threshold_witness :
    2 ≤ ([(-5 : ℚ), -5]).length ∧ (∀ x ∈ [(-5 : ℚ), -5], x = -5)
      ∧ (dropMean [(-5 : ℚ), -5] = -5 ∧ dropSS [(-5 : ℚ), -5] = 0
          ∧ (isAnomalous [(-5 : ℚ), -5] (-20) = true ↔
              ((-20 : ℚ) < -15 ∨ (-20 : ℚ) < dropMean [(-5 : ℚ), -5]))) :=
  ⟨by norm_num, by simp,
    degenerate_threshold.1 [(-5 : ℚ), -5] (-5) (-20) (by norm_num) (by simp)⟩

/-- The radical-free encoding used by `belowThreshold` agrees with the
literal source comparison `d < mean - 1.5 * std` interpreted over the
reals, where `std = sqrt (ss / (n - 1))` is the sample standard
deviation. -/
lemma adaptive_iff (μ ss d : ℚ) (n : ℕ) (hn : 2 ≤ n) (hss : 0 ≤ ss) :
    (d < μ ∧ (9 / 4) * ss < (μ - d) ^ 2 * ((n : ℚ) - 1)) ↔
      ((d : ℝ) < (μ : ℝ) - (3 / 2) * Real.sqrt ((ss : ℝ) / ((n : ℝ) - 1))) := by
  have hn1 : (0 : ℝ) < (n : ℝ) - 1 := by
    have : (2 : ℝ) ≤ (n : ℝ) := by exact_mod_cast hn
    linarith
  set v : ℝ := (ss : ℝ) / ((n : ℝ) - 1) with hv
  have hv0 : 0 ≤ v := div_nonneg (by exact_mod_cast hss) hn1.le
  have hsqrt : Real.sqrt ((9 / 4) * v) = (3 / 2) * Real.sqrt v := by
    rw [Real.sqrt_mul (by norm_num) v]
    congr 1
    rw [show (9 / 4 : ℝ) = (3 / 2) ^ 2 by norm_num, Real.sqrt_sq (by norm_num)]
  constructor
  · rintro ⟨hd, hlt⟩
    have hμd : (0 : ℝ) < (μ : ℝ) - (d : ℝ) := by
      have : (d : ℝ) < (μ : ℝ) := by exact_mod_cast hd
      linarith
    have hq : (9 / 4 : ℝ) * (ss : ℝ) < ((μ : ℝ) - (d : ℝ)) ^ 2 * ((n : ℝ) - 1) := by
      have := (@Rat.cast_lt _ _ ℝ _).mpr hlt
      push_cast at this
      exact this
    have h9 : (9 / 4 : ℝ) * v < ((μ : ℝ) - (d : ℝ)) ^ 2 := by
      rw [hv, ← mul_div_assoc]
      exact (div_lt_iff₀ hn1).mpr hq
    have hfin := (Real.sqrt_lt' hμd).mpr h9
    rw [hsqrt] at hfin
    linarith
  · intro h
    have h2 : (3 / 2) * Real.sqrt v < (μ : ℝ) - (d : ℝ) := by linarith
    have hμd : (0 : ℝ) < (μ : ℝ) - (d : ℝ) := lt_of_le_of_lt (by positivity) h2
    have hd : d < μ := by
      have : (d : ℝ) < (μ : ℝ) := by linarith
      exact_mod_cast this
    have h9 : (9 / 4 : ℝ) * v < ((μ : ℝ) - (d : ℝ)) ^ 2 :=
      (Real.sqrt_lt' hμd).mp (by rw [hsqrt]; exact h2)
    refine ⟨hd, ?_⟩
    have hq : (9 / 4 : ℝ) * (ss : ℝ) < ((μ : ℝ) - (d : ℝ)) ^ 2 * ((n : ℝ) - 1) := by
      rw [hv, ← mul_div_assoc] at h9
      exact (div_lt_iff₀ hn1).mp h9
    apply (@Rat.cast_lt _ _ ℝ _).mp
    push_cast
    exact hq

/-- C3: for a battery with at least two defined drops, a bucket with a
defined drop is flagged iff its drop is below `-15` or below
`mean - 1.5 * (sample standard deviation)` of all that battery's defined
drops; and `detect_anomalies` keeps exactly the rows whose defined drop
satisfies that predicate. -/
theorem anomaly_rule (df : List Row) (b : ℕ)
    (hn : 2 ≤ (socDrops (groupOf df b)).length) :
    (∀ d : ℚ,
        isAnomalous (socDrops (groupOf df b)) d = true ↔
          ((d : ℝ) < -15 ∨
            (d : ℝ) < (dropMean (socDrops (groupOf df b)) : ℝ)
              - (3 / 2) * Real.sqrt ((dropSS (socDrops (groupOf df b)) : ℝ)
                  / (((socDrops (groupOf df b)).length : ℝ) - 1))))
      ∧ detectBattery (groupOf df b)
          = ((withDrops (groupOf df b)).filter fun p =>
              match p.2 with
              | none => false
              | some d => isAnomalous (socDrops (groupOf df b)) d).map Prod.fst := by
  constructor
  · intro d
    have hiff := adaptive_iff (dropMean (socDrops (groupOf df b)))
      (dropSS (socDrops (groupOf df b))) d ((socDrops (groupOf df b)).length)
      hn (dropSS_nonneg _)
    simp only [isAnomalous, belowThreshold, Bool.or_eq_true, Bool.and_eq_true,
      decide_eq_true_eq]
    constructor
    · rintro (h | ⟨⟨-, h1⟩, h2⟩)
      · exact Or.inl (by exact_mod_cast h)
      · exact Or.inr (hiff.mp ⟨h1, h2⟩)
    · rintro (h | h)
      · exact Or.inl (by exact_mod_cast h)
      · obtain ⟨h1, h2⟩ := hiff.mpr h
        exact Or.inr ⟨⟨hn, h1⟩, h2⟩
  · unfold detectBattery
    rw [if_neg (by omega)]

/-- C3, witness at battery 1 of `bucketFrame` (three defined drops) and
candidate drop `-20`. -/
theorem anomaly_rule_witness :
    2 ≤ (socDrops (groupOf bucketFrame 1)).length
      ∧ (isAnomalous (socDrops (groupOf bucketFrame 1)) (-20) = true ↔
          (((-20 : ℚ) : ℝ) < -15 ∨
            ((-20 : ℚ) : ℝ) < (dropMean (socDrops (groupOf bucketFrame 1)) : ℝ)
              - (3 / 2) * Real.sqrt ((dropSS (socDrops (groupOf bucketFrame 1)) : ℝ)
                  / (((socDrops (groupOf bucketFrame 1)).length : ℝ) - 1)))) := by
  have hn : 2 ≤ (socDrops (groupOf bucketFrame 1)).length := by
    norm_num [bucketFrame, groupOf, sortByTs, socDrops, tsLE,
      List.insertionSort, List.orderedInsert]
  exact ⟨hn, (anomaly_rule bucketFrame 1 hn).1 (-20)⟩

/-! ### C4 -/

/-- Filtering commutes with ordered insertion of a kept element into a
sorted list. -/
lemma filter_orderedInsert_pos (p : Row → Bool) (a : Row) (hpa : p a = true) :
    ∀ s : List Row, s.Pairwise tsLE →
      (List.orderedInsert tsLE a s).filter p = List.orderedInsert tsLE a (s.filter p)
  | [], _ => by simp [hpa]
  | b :: s', hs => by
    by_cases hab : tsLE a b
    · rw [List.orderedInsert, if_pos hab]
      by_cases hpb : p b = true
      · rw [List.filter_cons_of_pos hpa, List.filter_cons_of_pos hpb,
          List.orderedInsert, if_pos hab]
      · rw [List.filter_cons_of_pos hpa, List.filter_cons_of_neg (by simp [hpb])]
        cases hfs : s'.filter p with
        | nil => simp
        | cons c rest =>
          have hc : c ∈ s' := by
            have : c ∈ s'.filter p := by rw [hfs]; exact List.mem_cons_self ..
            exact List.mem_of_mem_filter this
          have hac : tsLE a c := Trans.trans hab ((List.pairwise_cons.mp hs).1 c hc)
          rw [List.orderedInsert, if_pos hac]
    · rw [List.orderedInsert, if_neg hab]
      have ih := filter_orderedInsert_pos p a hpa s' (List.pairwise_cons.mp hs).2
      by_cases hpb : p b = true
      · rw [List.filter_cons_of_pos hpb, ih, List.filter_cons_of_pos hpb,
          List.orderedInsert, if_neg hab]
      · rw [List.filter_cons_of_neg (by simp [hpb]), ih,
          List.filter_cons_of_neg (by simp [hpb])]

/-- Ordered insertion of a dropped element is invisible to the filter. -/
lemma filter_orderedInsert_neg (p : Row → Bool) (a : Row) (hpa : p a = false) :
    ∀ s : List Row, (List.orderedInsert tsLE a s).filter p = s.filter p
  | [] => by simp [hpa]
  | b :: s' => by
    by_cases hab : tsLE a b
    · rw [List.orderedInsert, if_pos hab, List.filter_cons_of_neg (by simp [hpa])]
    · rw [List.orderedInsert, if_neg hab]
      by_cases hpb : p b = true
      · rw [List.filter_cons_of_pos hpb, List.filter_cons_of_pos hpb,
          filter_orderedInsert_neg p a hpa s']
      · rw [List.filter_cons_of_neg (by simp [hpb]), List.filter_cons_of_neg (by simp [hpb]),
          filter_orderedInsert_neg p a hpa s']

/-- The timestamp sort is stable, so it commutes with any row filter. -/
lemma sortByTs_filter (p : Row → Bool) :
    ∀ l : List Row, sortByTs (l.filter p) = (sortByTs l).filter p
  | [] => rfl
  | a :: l => by
    show List.insertionSort tsLE ((a :: l).filter p)
      = (List.insertionSort tsLE (a :: l)).filter p
    by_cases hpa : p a = true
    · rw [List.filter_cons_of_pos hpa]
      show List.orderedInsert tsLE a (List.insertionSort tsLE (l.filter p)) = _
      rw [show List.insertionSort tsLE (l.filter p) = (List.insertionSort tsLE l).filter p from
          sortByTs_filter p l]
      exact (filter_orderedInsert_pos p a hpa _ (List.sorted_insertionSort tsLE l)).symm
    · rw [List.filter_cons_of_neg (by simp [hpa])]
      show List.insertionSort tsLE (l.filter p) = _
      rw [show List.insertionSort tsLE (l.filter p) = (List.insertionSort tsLE l).filter p from
          sortByTs_filter p l]
      exact (filter_orderedInsert_neg p a (by simpa using hpa) _).symm

lemma clampedDrops_sum_nonneg : ∀ l : List Row, 0 ≤ (clampedDrops l).sum
  | [] => le_refl 0
  | [_] => le_refl 0
  | a :: b :: rest => by
    simp only [clampedDrops, List.sum_cons]
    have h1 := clampedDrops_sum_nonneg (b :: rest)
    have h0 : (0 : ℚ) ≤ max 0 (a.soc - b.soc) := le_max_left 0 _
    linarith

/-- Dropping an intermediate point can only lower the clamped drop across
it. -/
lemma max0_add_le (x y z : ℚ) : max 0 (x - z) ≤ max 0 (x - y) + max 0 (y - z) := by
  apply max_le
  · exact add_nonneg (le_max_left _ _) (le_max_left _ _)
  · have h1 : x - y ≤ max 0 (x - y) := le_max_right _ _
    have h2 : y - z ≤ max 0 (y - z) := le_max_right _ _
    linarith

lemma clampedDrops_sum_cons_le (a : Row) : ∀ l : List Row,
    (clampedDrops l).sum ≤ (clampedDrops (a :: l)).sum
  | [] => le_refl _
  | b :: rest => by
    simp only [clampedDrops, List.sum_cons]
    have h0 : (0 : ℚ) ≤ max 0 (a.soc - b.soc) := le_max_left 0 _
    linarith

lemma clampedDrops_sum_cons_mono {s l : List Row} (h : s.Sublist l) :
    ∀ a : Row, (clampedDrops (a :: s)).sum ≤ (clampedDrops (a :: l)).sum := by
  induction h with
  | slnil => exact fun _ => le_refl _
  | @cons l₁ l₂ b _ ih =>
    intro a
    refine le_trans (ih a) ?_
    cases l₂ with
    | nil => simp [clampedDrops]
    | cons c t =>
      simp only [clampedDrops, List.sum_cons]
      have := max0_add_le a.soc b.soc c.soc
      linarith
  | @cons₂ l₁ l₂ b _ ih =>
    intro a
    simp only [clampedDrops, List.sum_cons]
    have := ih b
    linarith

/-- Clamped drop sums only shrink when passing to a subsequence. -/
lemma clampedDrops_sum_sublist {s l : List Row} (h : s.Sublist l) :
    (clampedDrops s).sum ≤ (clampedDrops l).sum := by
  induction h with
  | slnil => exact le_refl _
  | cons b _ ih => exact le_trans ih (clampedDrops_sum_cons_le b _)
  | cons₂ b h _ => exact clampedDrops_sum_cons_mono h b

lemma round3_mono {x y : ℚ} (h : x ≤ y) : round3 x ≤ round3 y := by
  unfold round3
  have h1 : round (x * 1000) ≤ round (y * 1000) := by
    rw [round_eq, round_eq]
    exact Int.floor_le_floor (by linarith)
  have h2 : ((round (x * 1000) : ℤ) : ℚ) ≤ ((round (y * 1000) : ℤ) : ℚ) := by exact_mod_cast h1
  exact div_le_div_of_nonneg_right h2 (by norm_num)

lemma calculate_cycles_nonneg (l : List Row) : 0 ≤ calculate_cycles l := by
  unfold calculate_cycles
  have := clampedDrops_sum_nonneg (sortByTs l)
  positivity

/-- Shorter windows restrict further: the short slice is the long slice
filtered by the tighter cutoff. -/
lemma windowSlice_filter_eq {bdf : List Row} {w₁ w₂ : ℚ} (h : w₁ ≤ w₂) :
    windowSlice bdf w₁ = (windowSlice bdf w₂).filter fun r => decide (maxTs bdf - w₁ ≤ r.ts) := by
  unfold windowSlice
  rw [List.filter_filter]
  apply List.filter_congr
  intro r _
  by_cases h1 : maxTs bdf - w₁ ≤ r.ts
  · have h2 : maxTs bdf - w₂ ≤ r.ts := by linarith
    simp [h1, h2]
  · simp [h1]

lemma sortByTs_windowSlice_sublist (bdf : List Row) {w₁ w₂ : ℚ} (h : w₁ ≤ w₂) :
    (sortByTs (windowSlice bdf w₁)).Sublist (sortByTs (windowSlice bdf w₂)) := by
  rw [windowSlice_filter_eq h, sortByTs_filter]
  exact List.filter_sublist _

lemma sortByTs_windowSlice_sublist_self (bdf : List Row) (w : ℚ) :
    (sortByTs (windowSlice bdf w)).Sublist (sortByTs bdf) := by
  unfold windowSlice
  rw [sortByTs_filter]
  exact List.filter_sublist _

lemma calculate_cycles_windowSlice_mono {bdf : List Row} {w₁ w₂ : ℚ} (h : w₁ ≤ w₂) :
    calculate_cycles (windowSlice bdf w₁) ≤ calculate_cycles (windowSlice bdf w₂) := by
  unfold calculate_cycles
  exact div_le_div_of_nonneg_right
    (clampedDrops_sum_sublist (sortByTs_windowSlice_sublist bdf h)) (by norm_num)

lemma cyclesWindow_mono (bdf : List Row) {w₁ w₂ : ℚ} (h : w₁ ≤ w₂) :
    cyclesWindow bdf w₁ ≤ cyclesWindow bdf w₂ := by
  unfold cyclesWindow
  by_cases h1 : 1 < (windowSlice bdf w₁).length
  · have hsub : (windowSlice bdf w₁).length ≤ (windowSlice bdf w₂).length := by
      rw [windowSlice_filter_eq h]
      exact List.length_filter_le _ _
    rw [if_pos h1, if_pos (by omega)]
    exact calculate_cycles_windowSlice_mono h
  · rw [if_neg h1]
    by_cases h2 : 1 < (windowSlice bdf w₂).length
    · rw [if_pos h2]
      exact calculate_cycles_nonneg _
    · rw [if_neg h2]

lemma cyclesWindow_le_total (bdf : List Row) (w : ℚ) :
    cyclesWindow bdf w ≤ calculate_cycles bdf := by
  unfold cyclesWindow
  by_cases h1 : 1 < (windowSlice bdf w).length
  · rw [if_pos h1]
    unfold calculate_cycles
    exact div_le_div_of_nonneg_right
      (clampedDrops_sum_sublist (sortByTs_windowSlice_sublist_self bdf w)) (by norm_num)
  · rw [if_neg h1]
    exact calculate_cycles_nonneg bdf

/-- C4: for every battery in the output, the reported cycle counts are
monotone in the window: `24h ≤ 7d ≤ 30d ≤ total`. -/
theorem cycle_window_monotone (df : List Row) (b : ℕ) (res : CycleWindowResult)
    (hmem : (b, res) ∈ compute_all_cycles df) :
    res.cycles_last_24h ≤ res.cycles_last_7d
      ∧ res.cycles_last_7d ≤ res.cycles_last_30d
      ∧ res.cycles_last_30d ≤ res.total_cycles := by
  obtain ⟨-, rfl⟩ := mem_compute_all_cycles.mp hmem
  exact ⟨round3_mono (cyclesWindow_mono _ (by norm_num [hours24, days7])),
    round3_mono (cyclesWindow_mono _ (by norm_num [days7, days30])),
    round3_mono (cyclesWindow_le_total _ _)⟩

/-- C4, witness at battery 7 of `sampleFrame`. -/
theorem cycle_window_monotone_witness :
    ((7 : ℕ), computeBattery (sampleFrame.filter fun r => r.battery = 7))
        ∈ compute_all_cycles sampleFrame
      ∧ (computeBattery (sampleFrame.filter fun r => r.battery = 7)).cycles_last_24h
          ≤ (computeBattery (sampleFrame.filter fun r => r.battery = 7)).cycles_last_7d := by
  have hmem : ((7 : ℕ), computeBattery (sampleFrame.filter fun r => r.battery = 7))
      ∈ compute_all_cycles sampleFrame :=
    mem_compute_all_cycles.mpr ⟨by norm_num [sampleFrame, uniqueKeys], rfl⟩
  exact ⟨hmem, (cycle_window_monotone sampleFrame 7 _ hmem).1⟩

/-! ### C10 -/

lemma uniqueKeys_mem : ∀ (l : List ℕ) (a : ℕ), a ∈ uniqueKeys l ↔ a ∈ l
  | [], _ => Iff.rfl
  | b :: l, a => by
    simp only [uniqueKeys, List.mem_cons, List.mem_filter]
    constructor
    · rintro (rfl | ⟨h, -⟩)
      · exact Or.inl rfl
      · exact Or.inr ((uniqueKeys_mem l a).mp h)
    · rintro (rfl | h)
      · exact Or.inl rfl
      · by_cases hab : a = b
        · exact Or.inl hab
        · exact Or.inr ⟨(uniqueKeys_mem l a).mpr h, by simpa using hab⟩

lemma uniqueKeys_nodup : ∀ l : List ℕ, (uniqueKeys l).Nodup
  | [] => List.nodup_nil
  | b :: l => by
    refine List.nodup_cons.mpr ⟨fun hb => ?_, (uniqueKeys_nodup l).filter _⟩
    have := List.of_mem_filter hb
    simp at this

lemma withDropsFrom_map_fst : ∀ (p : Row) (l : List Row),
    (withDropsFrom p l).map Prod.fst = l
  | _, [] => rfl
  | _, a :: rest => by
    simp only [withDropsFrom, List.map_cons, List.cons.injEq, true_and]
    exact withDropsFrom_map_fst a rest

lemma withDrops_map_fst : ∀ l : List Row, (withDrops l).map Prod.fst = l
  | [] => rfl
  | a :: rest => by
    simp only [withDrops, List.map_cons, List.cons.injEq, true_and]
    exact withDropsFrom_map_fst a rest

/-- The anomalous subset is an order-preserving subset of the full
series. -/
lemma detectBattery_sublist (g : List Row) : (detectBattery g).Sublist g := by
  unfold detectBattery
  by_cases h : (socDrops g).length = 0
  · rw [if_pos h]
    exact List.nil_sublist g
  · rw [if_neg h]
    conv_rhs => rw [← withDrops_map_fst g]
    exact List.Sublist.map Prod.fst (List.filter_sublist _)

/-- C10: `detect_anomalies` reports exactly one entry per distinct battery
identifier of its input (in sorted order), and each entry carries that
battery's full timestamp-sorted series together with an anomaly list that
is an order-preserving subset of it. -/
theorem detector_output_shape (df : List Row) :
    (detect_anomalies df).map (fun e => e.1) = batteriesSorted df
      ∧ (batteriesSorted df).Nodup
      ∧ (∀ b : ℕ, b ∈ batteriesSorted df ↔ ∃ r ∈ df, r.battery = b)
      ∧ ∀ e ∈ detect_anomalies df,
          e.2.1.Perm (df.filter fun r => r.battery = e.1)
            ∧ e.2.1.Pairwise tsLE
            ∧ e.2.2.Sublist e.2.1 := by
  refine ⟨?_, ?_, ?_, ?_⟩
  · simp [detect_anomalies, List.map_map, Function.comp_def]
  · exact ((List.perm_insertionSort _ _).nodup_iff).mpr (uniqueKeys_nodup _)
  · intro b
    unfold batteriesSorted
    rw [List.mem_insertionSort, uniqueKeys_mem]
    simp
  · intro e he
    obtain ⟨b, _, rfl⟩ := List.mem_map.mp he
    exact ⟨List.perm_insertionSort _ _, List.sorted_insertionSort _ _, detectBattery_sublist _⟩

/-- C10, witness at `sampleFrame` and its battery 7 entry. -/
theorem detector_output_shape_witness :
    (detect_anomalies sampleFrame).map (fun e => e.1) = batteriesSorted sampleFrame
      ∧ ((7 : ℕ), groupOf sampleFrame 7, detectBattery (groupOf sampleFrame 7))
          ∈ detect_anomalies sampleFrame
      ∧ (detectBattery (groupOf sampleFrame 7)).Sublist (groupOf sampleFrame 7) := by
  have hmem : ((7 : ℕ), groupOf sampleFrame 7, detectBattery (groupOf sampleFrame 7))
      ∈ detect_anomalies sampleFrame := by
    unfold detect_anomalies
    refine List.mem_map.mpr ⟨7, ?_, rfl⟩
    norm_num [sampleFrame, batteriesSorted, uniqueKeys, List.insertionSort, List.orderedInsert]
  exact ⟨(detector_output_shape sampleFrame).1, hmem,
    ((detector_output_shape sampleFrame).2.2.2 _ hmem).2.2⟩

/-! ### C9 -/

lemma maximum_perm {l₁ l₂ : List ℚ} (h : l₁.Perm l₂) : l₁.maximum = l₂.maximum :=
  le_antisymm
    (List.maximum_le_of_forall_le fun _ ha => List.le_maximum_of_mem' (h.mem_iff.mp ha))
    (List.maximum_le_of_forall_le fun _ ha => List.le_maximum_of_mem' (h.mem_iff.mpr ha))

lemma maxTs_perm {l₁ l₂ : List Row} (h : l₁.Perm l₂) : maxTs l₁ = maxTs l₂ := by
  unfold maxTs
  rw [maximum_perm (h.map Row.ts)]

/-- With pairwise-distinct timestamps the timestamp sort of a list is
determined by its multiset of rows. -/
lemma sortByTs_eq_of_perm {l₁ l₂ : List Row} (h : l₁.Perm l₂)
    (hts : l₁.Pairwise fun a b => a.ts ≠ b.ts) : sortByTs l₁ = sortByTs l₂ := by
  refine List.Perm.eq_of_sorted ?_ (List.sorted_insertionSort tsLE l₁)
    (List.sorted_insertionSort tsLE l₂)
    ((List.perm_insertionSort tsLE l₁).trans (h.trans (List.perm_insertionSort tsLE l₂).symm))
  intro a b ha hb hab hba
  have ha' : a ∈ l₁ := (List.mem_insertionSort tsLE).mp ha
  have hb' : b ∈ l₁ := h.mem_iff.mpr ((List.mem_insertionSort tsLE).mp hb)
  by_contra hne
  exact hts.forall (fun _ _ hxy => Ne.symm hxy) ha' hb' hne (le_antisymm hab hba)

/-- Rows of one battery inherit pairwise-distinct timestamps from the
per-battery distinctness hypothesis. -/
lemma battery_pairwise_ts {df : List Row}
    (hts : df.Pairwise fun r r' => r.battery = r'.battery → r.ts ≠ r'.ts) (b : ℕ) :
    (df.filter fun r => r.battery = b).Pairwise fun a c => a.ts ≠ c.ts := by
  have h1 : (df.filter fun r => r.battery = b).Pairwise
      (fun r r' => r.battery = r'.battery → r.ts ≠ r'.ts) :=
    hts.sublist (List.filter_sublist df)
  refine List.Pairwise.imp_of_mem ?_ h1
  intro a c ha hc hr
  have ha' : a.battery = b := by simpa using List.of_mem_filter ha
  have hc' : c.battery = b := by simpa using List.of_mem_filter hc
  exact hr (ha'.trans hc'.symm)

lemma groupOf_eq_of_perm {df df' : List Row} (h : df.Perm df')
    (hts : df.Pairwise fun r r' => r.battery = r'.battery → r.ts ≠ r'.ts) (b : ℕ) :
    groupOf df b = groupOf df' b := by
  unfold groupOf
  exact sortByTs_eq_of_perm (h.filter _) (battery_pairwise_ts hts b)

lemma batteriesSorted_eq_of_perm {df df' : List Row} (h : df.Perm df') :
    batteriesSorted df = batteriesSorted df' := by
  unfold batteriesSorted
  have hperm : (uniqueKeys (df.map Row.battery)).Perm (uniqueKeys (df'.map Row.battery)) :=
    (List.perm_ext_iff_of_nodup (uniqueKeys_nodup _) (uniqueKeys_nodup _)).mpr fun a => by
      rw [uniqueKeys_mem, uniqueKeys_mem, (h.map Row.battery).mem_iff]
  exact List.eq_of_perm_of_sorted
    ((List.perm_insertionSort _ _).trans (hperm.trans (List.perm_insertionSort _ _).symm))
    (List.sorted_insertionSort _ _) (List.sorted_insertionSort _ _)

lemma computeBattery_eq_of_perm {bdf bdf' : List Row} (h : bdf.Perm bdf')
    (hts : bdf.Pairwise fun a b => a.ts ≠ b.ts) :
    computeBattery bdf = computeBattery bdf' := by
  have hmax : maxTs bdf = maxTs bdf' := maxTs_perm h
  have hws : ∀ w : ℚ, (windowSlice bdf w).Perm (windowSlice bdf' w) := fun w => by
    unfold windowSlice
    rw [hmax]
    exact h.filter _
  have hwts : ∀ w : ℚ, (windowSlice bdf w).Pairwise fun a b => a.ts ≠ b.ts := fun w =>
    hts.sublist (List.filter_sublist bdf)
  have hcw : ∀ w : ℚ, cyclesWindow bdf w = cyclesWindow bdf' w := fun w => by
    unfold cyclesWindow calculate_cycles
    rw [sortByTs_eq_of_perm (hws w) (hwts w), (hws w).length_eq]
  have htot : calculate_cycles bdf = calculate_cycles bdf' := by
    unfold calculate_cycles
    rw [sortByTs_eq_of_perm h hts]
  unfold computeBattery
  rw [hcw hours24, hcw days7, hcw days30, htot]

lemma detect_anomalies_eq_of_perm {df df' : List Row} (h : df.Perm df')
    (hts : df.Pairwise fun r r' => r.battery = r'.battery → r.ts ≠ r'.ts) :
    detect_anomalies df = detect_anomalies df' := by
  unfold detect_anomalies
  rw [batteriesSorted_eq_of_perm h]
  apply List.map_congr_left
  intro b _
  rw [groupOf_eq_of_perm h hts b]

/-- C9: when each battery's timestamps are pairwise distinct, cycle
counts and the anomaly output are invariant under any permutation of the
input rows, because both components sort by timestamp first. -/
theorem permutation_invariance (df df' : List Row) (hperm : df.Perm df')
    (hts : df.Pairwise fun r r' => r.battery = r'.battery → r.ts ≠ r'.ts) :
    (∀ b : ℕ, calculate_cycles (df.filter fun r => r.battery = b)
        = calculate_cycles (df'.filter fun r => r.battery = b))
      ∧ (∀ (b : ℕ) (res : CycleWindowResult),
          (b, res) ∈ compute_all_cycles df ↔ (b, res) ∈ compute_all_cycles df')
      ∧ detect_anomalies df = detect_anomalies df' := by
  refine ⟨fun b => ?_, fun b res => ?_, detect_anomalies_eq_of_perm hperm hts⟩
  · unfold calculate_cycles
    rw [sortByTs_eq_of_perm (hperm.filter _) (battery_pairwise_ts hts b)]
  · rw [mem_compute_all_cycles, mem_compute_all_cycles,
      computeBattery_eq_of_perm (hperm.filter _) (battery_pairwise_ts hts b),
      uniqueKeys_mem, uniqueKeys_mem, (hperm.map Row.battery).mem_iff]

/-- Two orderings of the same two samples of one battery. -/
def permFrame : List Row := [⟨1, 2, 50⟩, ⟨1, 0, 90⟩]

/-- The other ordering of `permFrame`. -/
def permFrameSwapped : List Row := [⟨1, 0, 90⟩, ⟨1, 2, 50⟩]

/-- C9, witness: swapping the two rows of `permFrame` leaves the detector
output unchanged. -/
theorem permutation_invariance_witness :
    permFrame.Perm permFrameSwapped
      ∧ (permFrame.Pairwise fun r r' => r.battery = r'.battery → r.ts ≠ r'.ts)
      ∧ detect_anomalies permFrame = detect_anomalies permFrameSwapped := by
  have h1 : permFrame.Perm permFrameSwapped := by
    unfold permFrame permFrameSwapped
    exact List.Perm.swap _ _ _
  have h2 : permFrame.Pairwise fun r r' => r.battery = r'.battery → r.ts ≠ r'.ts := by
    norm_num [permFrame, List.pairwise_cons]
  exact ⟨h1, h2, (permutation_invariance permFrame permFrameSwapped h1 h2).2.2⟩

/-! ### C8 -/

/-- C8: both components are deterministic pure functions of their input
sequence; rerunning either on the same immutable input yields identical
output.  In this embedding both are total functions with no state, so the
two runs are definitionally the same value. -/
theorem components_deterministic (df : List Row) :
    compute_all_cycles df = compute_all_cycles df
      ∧ detect_anomalies df = detect_anomalies df :=
  ⟨rfl, rfl⟩

end BatteryReport
